import Mathlib

/-!
Shallow embedding of the SCOS-2000 MIB parser and search modules
(`src/mibParser.ts`, `src/search.ts`) and verification of the spec's claims.

Modelling conventions:
* TypeScript strings are `Str := List Char` (so that concrete runs reduce in
  the kernel); a string field that can be `undefined` at runtime is an
  `Option Str` (with `some []` distinct from `none`, as in JS).
* A JS `Map` is an insertion-ordered association list `JsMap α`; `mapSet`
  replaces in place on an existing key and appends otherwise, exactly as a JS
  `Map` does; keys of maps built from the empty map are unique by construction.
* JS truthiness of a possibly-undefined string (`!x`) is `jsTruthy`.
* `trim` uses `Char.isWhitespace`; `toLowerCase`/`toUpperCase` map
  `Char.toLower`/`Char.toUpper`; `localeCompare` on ids and the default
  `Array.prototype.sort()` on strings are modelled by code-point
  lexicographic order (`chLe`).  These are the standard idealisations of the
  corresponding locale/Unicode-dependent JS operations.
-/

namespace Scos

/-- TypeScript strings, as lists of characters. -/
abbrev Str := List Char

/-! ## Primitive string operations -/

/-- `pre` is a prefix of the second argument. -/
def chIsPrefix : Str → Str → Bool
  | [], _ => true
  | _ :: _, [] => false
  | a :: as, b :: bs => a = b && chIsPrefix as bs

/-- `s.includes(sub)`: `sub` occurs contiguously in the second argument. -/
def chIsInfix (sub : Str) : Str → Bool
  | [] => chIsPrefix sub []
  | c :: rest => chIsPrefix sub (c :: rest) || chIsInfix sub rest

/-- `line.split(sep)` for a one-character separator. -/
def chSplit (sep : Char) : Str → List Str
  | [] => [[]]
  | c :: rest =>
      let r := chSplit sep rest
      if c = sep then [] :: r
      else
        match r with
        | [] => [[c]]
        | s :: ss => (c :: s) :: ss

def chTrimLeft : Str → Str
  | [] => []
  | c :: rest => if c.isWhitespace then chTrimLeft rest else c :: rest

/-- `s.trim()`. -/
def chTrim (s : Str) : Str := ((chTrimLeft s).reverse |> chTrimLeft).reverse

/-- `s.toLowerCase()`. -/
def chToLower (s : Str) : Str := s.map Char.toLower

/-- `s.toUpperCase()`. -/
def chToUpper (s : Str) : Str := s.map Char.toUpper

/-- Strict code-point lexicographic order. -/
def chLt : Str → Str → Bool
  | [], [] => false
  | [], _ :: _ => true
  | _ :: _, [] => false
  | a :: as, b :: bs => a < b || (a = b && chLt as bs)

/-- `a.localeCompare(b) <= 0`, modelled as code-point lexicographic order. -/
def chLe (a b : Str) : Bool := !(chLt b a)

/-- `strLeProp a b`: the ascending string order used by `Array.sort()`. -/
def strLeProp (a b : Str) : Prop := chLe a b = true

instance : DecidableRel strLeProp := fun a b => Bool.decEq _ _

/-! ## Data model (`mibParser.ts` lines 1-46) -/

structure ParamEntry where
  name : Str
  kind : Option Str := none
  bitLength : Option Str := none
  bitOffset : Option Str := none
  paramId : Option Str := none
  enumSetId : Option Str := none
  raw : List Str := []
  enumerations : Option (List Str) := none
  deriving Repr, DecidableEq

structure TcEntry where
  id : Str
  name : Option Str := none
  description : Option Str := none
  header : Option Str := none
  serviceType : Option Str := none
  subService : Option Str := none
  apid : Option Str := none
  sourcePath : Str
  sourceLine : Nat
  params : List ParamEntry := []
  deriving Repr, DecidableEq

structure TelemetryEntry where
  sid : Str
  service : Option Str := none
  subService : Option Str := none
  description : Option Str := none
  sourcePath : Str
  sourceLine : Nat
  params : List ParamEntry := []
  deriving Repr, DecidableEq

structure PcfEntry where
  paramId : Str
  name : Option Str := none
  enumSetId : Option Str := none
  raw : List Str := []
  deriving Repr, DecidableEq

/-- Insertion-ordered association list standing for a JS `Map`. -/
abbrev JsMap (α : Type) := List (Str × α)

/-- `Map.get`: value of the first entry with the given key. -/
def mapGet {α : Type} : JsMap α → Str → Option α
  | [], _ => none
  | (k', v) :: rest, k => if k' = k then some v else mapGet rest k

/-- `Map.set`: replace in place if the key is present, append otherwise. -/
def mapSet {α : Type} : JsMap α → Str → α → JsMap α
  | [], k, v => [(k, v)]
  | (k', v') :: rest, k, v =>
      if k' = k then (k, v) :: rest else (k', v') :: mapSet rest k v

/-- Key sequence of a map (`Map.keys`, insertion order). -/
def mapKeys {α : Type} (m : JsMap α) : List Str := m.map Prod.fst

/-- JS truthiness of a possibly-undefined string: `undefined` and `""` are falsy. -/
def jsTruthy : Option Str → Bool
  | none => false
  | some s => s ≠ []

/-! ## Line tokenizer (`mibParser.ts` lines 48-50 and the shared skip test) -/

/-- `line.split("\t").map(v => v.trim())`. -/
def splitDatLine (line : Str) : List Str :=
  (chSplit '\t' line).map chTrim

/-- The comment/blank test
`!line || line.trim().length === 0 || line.trim().startsWith("#")`. -/
def skipLine (line : Str) : Bool :=
  line = [] || chTrim line = [] || chIsPrefix ['#'] (chTrim line)

/-- `cols[i]` read where the caller immediately coerces `undefined` to a falsy
value; out of bounds yields `""`, which is falsy exactly like `undefined`. -/
def col (cols : List Str) (i : Nat) : Str := (cols.get? i).getD []

/-- `cols[i]` stored into an optional field: out of bounds is `undefined`. -/
def colOpt (cols : List Str) (i : Nat) : Option Str := cols.get? i

end Scos

namespace Scos

/-! ## Table parsers (`mibParser.ts` lines 52-296) -/

/-- The `TcEntry` produced by one CCF row (`parseCcfLines` loop body), or
`none` when the row is skipped.  `i` is the 0-based position of the line. -/
def ccfRowEntry (sourcePath : Str) (i : Nat) (line : Str) : Option TcEntry :=
  if skipLine line then none
  else
    let cols := splitDatLine line
    let id := col cols 0
    if id = [] then none
    else some
      { id := id
        name := colOpt cols 1
        description := colOpt cols 2
        header := colOpt cols 5
        serviceType := colOpt cols 6
        subService := colOpt cols 7
        apid := colOpt cols 8
        sourcePath := sourcePath
        sourceLine := i + 1
        params := [] }

def parseCcfLinesAux (sourcePath : Str) (i : Nat) : List Str → List TcEntry
  | [] => []
  | line :: rest =>
      match ccfRowEntry sourcePath i line with
      | none => parseCcfLinesAux sourcePath (i + 1) rest
      | some e => e :: parseCcfLinesAux sourcePath (i + 1) rest

def parseCcfLines (lines : List Str) (sourcePath : Str) : List TcEntry :=
  parseCcfLinesAux sourcePath 0 lines

/-- The `TelemetryEntry` produced by one PID row, or `none` when skipped. -/
def pidRowEntry (sourcePath : Str) (i : Nat) (line : Str) : Option TelemetryEntry :=
  if skipLine line then none
  else
    let cols := splitDatLine line
    let sid := col cols 5
    if sid = [] then none
    else some
      { sid := sid
        service := colOpt cols 0
        subService := colOpt cols 1
        description := colOpt cols 6
        sourcePath := sourcePath
        sourceLine := i + 1
        params := [] }

def parsePidLinesAux (sourcePath : Str) (i : Nat) : List Str → List TelemetryEntry
  | [] => []
  | line :: rest =>
      match pidRowEntry sourcePath i line with
      | none => parsePidLinesAux sourcePath (i + 1) rest
      | some e => e :: parsePidLinesAux sourcePath (i + 1) rest

def parsePidLines (lines : List Str) (sourcePath : Str) : List TelemetryEntry :=
  parsePidLinesAux sourcePath 0 lines

/-- The `PcfEntry` produced by one PCF row, or `none` when skipped. -/
def pcfRowEntry (line : Str) : Option PcfEntry :=
  if skipLine line then none
  else
    let cols := splitDatLine line
    let paramId := col cols 0
    if paramId = [] then none
    else some
      { paramId := paramId
        name := colOpt cols 1
        enumSetId := colOpt cols 11
        raw := cols }

def parsePcfLines (lines : List Str) : JsMap PcfEntry :=
  lines.foldl
    (fun m line =>
      match pcfRowEntry line with
      | none => m
      | some e => mapSet m e.paramId e)
    []

/-- `pcfEntry?.name || paramId`: optional-chain followed by falsy fallback. -/
def jsOrStr (o : Option Str) (d : Str) : Str :=
  match o with
  | none => d
  | some s => if s = [] then d else s

/-- One PLF row applied to the telemetry map (`parsePlfLines` loop body). -/
def plfStep (pcfByParamId : JsMap PcfEntry) (tel : JsMap TelemetryEntry) (line : Str) :
    JsMap TelemetryEntry :=
  if skipLine line then tel
  else
    let cols := splitDatLine line
    let paramId := col cols 0
    let sid := col cols 1
    if paramId = [] ∨ sid = [] then tel
    else
      match mapGet tel sid with
      | none => tel
      | some target =>
          let pcfEntry := mapGet pcfByParamId paramId
          mapSet tel sid
            { target with
                params := target.params ++
                  [{ name := jsOrStr (pcfEntry.bind (·.name)) paramId
                     paramId := some paramId
                     enumSetId := pcfEntry.bind (·.enumSetId)
                     kind := some "P".toList
                     raw := cols }] }

def parsePlfLines (lines : List Str) (tel : JsMap TelemetryEntry)
    (pcfByParamId : JsMap PcfEntry) : JsMap TelemetryEntry :=
  lines.foldl (plfStep pcfByParamId) tel

/-- `Set.add` on an insertion-ordered string set. -/
def setAdd (s : List Str) (x : Str) : List Str :=
  if x ∈ s then s else s ++ [x]

/-- `Array.from(set).sort()`: the stable ascending sort of JS, modelled by the
stable `insertionSort` (a stable sort w.r.t. a total preorder is unique, so
any stable sorting algorithm gives the JS result). -/
def sortStrings (l : List Str) : List Str := l.insertionSort strLeProp

/-- First loop of `parseCveLines`: accumulate `valuesByParamId`. -/
def cveCollectStep (m : JsMap (List Str)) (line : Str) : JsMap (List Str) :=
  if skipLine line then m
  else
    let cols := splitDatLine line
    let valueId := col cols 1
    let valueType := col cols 2
    let valueRange := col cols 3
    if valueId = [] then m
    else
      let m1 := if (mapGet m valueId).isSome then m else mapSet m valueId []
      if valueType = "E".toList ∧ valueRange ≠ [] then
        mapSet m1 valueId (setAdd ((mapGet m1 valueId).getD []) valueRange)
      else m1

def cveCollect (lines : List Str) : JsMap (List Str) :=
  lines.foldl cveCollectStep []

/-- Second loop of `parseCveLines`: attach sorted value lists to a parameter
whose truthy `paramId` is a key of `valuesByParamId`. -/
def cveAttachParam (vm : JsMap (List Str)) (p : ParamEntry) : ParamEntry :=
  match p.paramId with
  | none => p
  | some pid =>
      if pid = [] then p
      else
        match mapGet vm pid with
        | none => p
        | some vals => { p with enumerations := some (sortStrings vals) }

def parseCveLines (lines : List Str) (tcById : JsMap TcEntry) : JsMap TcEntry :=
  let vm := cveCollect lines
  tcById.map (fun kv => (kv.1, { kv.2 with params := kv.2.params.map (cveAttachParam vm) }))

/-- `parseCvpLines` builds `valuesByTcId` ... and attaches it to nothing. -/
def cvpCollect (lines : List Str) : JsMap (List Str) :=
  lines.foldl
    (fun m line =>
      if skipLine line then m
      else
        let cols := splitDatLine line
        let tcId := col cols 0
        let valueId := col cols 2
        if tcId = [] ∨ valueId = [] then m
        else
          let m1 := if (mapGet m tcId).isSome then m else mapSet m tcId []
          mapSet m1 tcId (setAdd ((mapGet m1 tcId).getD []) valueId))
    []

/-- `parseCvpLines` mutates no entry: the map it computes is discarded. -/
def parseCvpLines (lines : List Str) (tcById : JsMap TcEntry) : JsMap TcEntry :=
  let _ := cvpCollect lines
  tcById

/-- First loop of `parseTxpLines`: accumulate `enumsByEnumSetId`. -/
def txpCollectStep (m : JsMap (List Str)) (line : Str) : JsMap (List Str) :=
  if skipLine line then m
  else
    let cols := splitDatLine line
    let enumSetId := col cols 0
    let enumValue := (cols.getLast?).getD []
    if enumSetId = [] ∨ enumValue = [] then m
    else
      let m1 := if (mapGet m enumSetId).isSome then m else mapSet m enumSetId []
      mapSet m1 enumSetId (setAdd ((mapGet m1 enumSetId).getD []) (chTrim enumValue))

def txpCollect (lines : List Str) : JsMap (List Str) :=
  lines.foldl txpCollectStep []

/-- Second loop of `parseTxpLines`: attach enum lists via `enumSetId`. -/
def txpAttachParam (em : JsMap (List Str)) (p : ParamEntry) : ParamEntry :=
  match p.enumSetId with
  | none => p
  | some es =>
      if es = [] then p
      else
        match mapGet em es with
        | none => p
        | some vals => { p with enumerations := some (sortStrings vals) }

def parseTxpLines (lines : List Str) (tel : JsMap TelemetryEntry) : JsMap TelemetryEntry :=
  let em := txpCollect lines
  tel.map (fun kv => (kv.1, { kv.2 with params := kv.2.params.map (txpAttachParam em) }))

/-- The `ParamEntry` built from one CDF row's columns. -/
def cdfRowParam (cols : List Str) : ParamEntry :=
  { name := col cols 2
    kind := colOpt cols 1
    bitLength := colOpt cols 3
    bitOffset := colOpt cols 4
    paramId := colOpt cols 6
    raw := cols }

/-- One CDF row applied to `tcById` (`parseCdfLines` loop body). -/
def cdfStep (m : JsMap TcEntry) (line : Str) : JsMap TcEntry :=
  if skipLine line then m
  else
    let cols := splitDatLine line
    let tcId := col cols 0
    if tcId = [] then m
    else
      match mapGet m tcId with
      | none => m
      | some target =>
          mapSet m tcId { target with params := target.params ++ [cdfRowParam cols] }

def parseCdfLines (lines : List Str) (m : JsMap TcEntry) : JsMap TcEntry :=
  lines.foldl cdfStep m

/-! ## MIB index builder (`mibParser.ts` lines 298-360) -/

structure DatFile where
  path : Str
  lines : List Str
  deriving Repr, DecidableEq

structure MibIndex where
  tcById : JsMap TcEntry
  tcByName : JsMap TcEntry
  telemetryBySid : JsMap TelemetryEntry
  deriving Repr, DecidableEq

/-- The CCF insertion loop body: `tcById.set(entry.id, entry)` and, when the
name is truthy, `tcByName.set(entry.name, entry)`. -/
def ccfInsertEntry (maps : JsMap TcEntry × JsMap TcEntry) (e : TcEntry) :
    JsMap TcEntry × JsMap TcEntry :=
  (mapSet maps.1 e.id e,
    if jsTruthy e.name then mapSet maps.2 (e.name.getD []) e else maps.2)

/-- State of `tcById`/`tcByName` after the CCF pass. -/
def buildCcfMaps (ccfFiles : List DatFile) : JsMap TcEntry × JsMap TcEntry :=
  ccfFiles.foldl
    (fun maps file => (parseCcfLines file.lines file.path).foldl ccfInsertEntry maps)
    ([], [])

/-- The PCF merge loop: a paramId already present keeps its first-file entry. -/
def buildPcfByParamId (pcfFiles : List DatFile) : JsMap PcfEntry :=
  pcfFiles.foldl
    (fun acc file =>
      (parsePcfLines file.lines).foldl
        (fun acc kv => if (mapGet acc kv.1).isSome then acc else mapSet acc kv.1 kv.2)
        acc)
    []

/-- In the source, `tcByName` holds references to the same objects as
`tcById`, so later in-place mutations through `tcById` (CDF rows, CVE
enumerations) are visible through `tcByName` exactly for the entries that were
the last CCF write for their id.  This resolves that aliasing at value level:
an entry still current in the post-CCF `tcById` is replaced by its final
mutated form; an entry that was overwritten keeps its creation-time value. -/
def resolveByName (byId0 : JsMap TcEntry) (byIdFinal : JsMap TcEntry)
    (byName : JsMap TcEntry) : JsMap TcEntry :=
  byName.map (fun kv =>
    (kv.1, if mapGet byId0 kv.2.id = some kv.2
           then (mapGet byIdFinal kv.2.id).getD kv.2
           else kv.2))

def buildMibIndexFromLines (ccfFiles cdfFiles pidFiles plfFiles pcfFiles cveFiles
    cvpFiles txpFiles : List DatFile) : MibIndex :=
  let tcMaps := buildCcfMaps ccfFiles
  let tcById := cdfFiles.foldl (fun m file => parseCdfLines file.lines m) tcMaps.1
  let telemetryBySid :=
    pidFiles.foldl
      (fun m file => (parsePidLines file.lines file.path).foldl
        (fun m e => mapSet m e.sid e) m)
      []
  let pcfByParamId := buildPcfByParamId pcfFiles
  let telemetryBySid :=
    plfFiles.foldl (fun m file => parsePlfLines file.lines m pcfByParamId) telemetryBySid
  let tcById := cveFiles.foldl (fun m file => parseCveLines file.lines m) tcById
  let tcById := cvpFiles.foldl (fun m file => parseCvpLines file.lines m) tcById
  let telemetryBySid :=
    txpFiles.foldl (fun m file => parseTxpLines file.lines m) telemetryBySid
  { tcById := tcById
    tcByName := resolveByName tcMaps.1 tcById tcMaps.2
    telemetryBySid := telemetryBySid }

end Scos

namespace Scos

/-! ## Row-selection helpers used to state the claims -/

/-- A CCF line that produces an entry: neither comment/blank nor empty col0. -/
def ccfKeeps (line : Str) : Bool :=
  !skipLine line && col (splitDatLine line) 0 ≠ []

/-- A PCF line that produces an entry for key `k`. -/
def pcfKeepsFor (k : Str) (line : Str) : Bool :=
  !skipLine line && col (splitDatLine line) 0 ≠ [] && col (splitDatLine line) 0 = k

/-- The `PcfEntry` a kept PCF row produces (line already known to be kept). -/
def pcfEntryOfLine (line : Str) : PcfEntry :=
  { paramId := col (splitDatLine line) 0
    name := colOpt (splitDatLine line) 1
    enumSetId := colOpt (splitDatLine line) 11
    raw := splitDatLine line }

/-- A CVE line that is neither comment/blank nor lacking col1. -/
def cveKeeps (line : Str) : Bool :=
  !skipLine line && col (splitDatLine line) 1 ≠ []

/-- A kept CVE row for valueId `v` that contributes an enum label
(`valueType === "E"` with truthy `valueRange`). -/
def cveERowFor (v : Str) (line : Str) : Bool :=
  cveKeeps line && col (splitDatLine line) 1 = v &&
    col (splitDatLine line) 2 = "E".toList && col (splitDatLine line) 3 ≠ []

/-- The `ParamEntry` contributed to the entry with id `k` by one CDF line,
if any: `none` for comment/blank lines, lines with an empty col0, and lines
whose col0 is a different id. -/
def cdfRowParamOpt (k : Str) (line : Str) : Option ParamEntry :=
  if skipLine line then none
  else
    let cols := splitDatLine line
    if col cols 0 = [] then none
    else if col cols 0 = k then some (cdfRowParam cols) else none

/-- All parameters contributed to id `k` by one CDF file, in row order. -/
def cdfNewParams (k : Str) (lines : List Str) : List ParamEntry :=
  lines.filterMap (cdfRowParamOpt k)

/-- All parameters contributed to id `k` across CDF files, file-then-row. -/
def cdfAllNewParams (k : Str) (files : List DatFile) : List ParamEntry :=
  (files.map (fun f => cdfNewParams k f.lines)).flatten

/-- The tokenized form of the CDF rows matching id `k`, file-then-row: one
row per kept line (not comment/blank, non-empty col0) whose col0 is `k`. -/
def cdfMatchingRows (k : Str) (files : List DatFile) : List (List Str) :=
  (files.map (fun f =>
    f.lines.filterMap (fun line =>
      if skipLine line then none
      else if col (splitDatLine line) 0 = [] then none
      else if col (splitDatLine line) 0 = k then some (splitDatLine line)
      else none))).flatten

/-- `{e with params := e.params ++ ps}` as a function, for composition. -/
def appendParams (ps : List ParamEntry) (e : TcEntry) : TcEntry :=
  { e with params := e.params ++ ps }

/-- All CCF entries produced across the CCF files, file order. -/
def allCcfEntries (ccfFiles : List DatFile) : List TcEntry :=
  (ccfFiles.map (fun f => parseCcfLines f.lines f.path)).flatten

end Scos

namespace Scos

/-! ## Search module (`search.ts`) -/

structure EntrySearchIndex where
  entry : TcEntry
  idLower : Str
  nameLower : Str
  descLower : Str
  paramNamesLower : List Str
  deriving Repr, DecidableEq

def buildEntrySearchIndex (entries : List TcEntry) : List EntrySearchIndex :=
  entries.map (fun e =>
    { entry := e
      idLower := chToLower e.id
      nameLower := chToLower (e.name.getD [])
      descLower := chToLower (e.description.getD [])
      paramNamesLower := e.params.map (fun p => chToLower p.name) })

/-- `s.includes(sub)`. -/
def strIncludes (s sub : Str) : Bool := chIsInfix sub s

def scoreEntryMatch (item : EntrySearchIndex) (queryLower : Str) : Nat :=
  if queryLower = [] then 0
  else if strIncludes item.idLower queryLower || strIncludes item.nameLower queryLower then 3
  else if item.paramNamesLower.any (fun n => strIncludes n queryLower) then 2
  else if strIncludes item.descLower queryLower then 1
  else 0

structure RankedEntry where
  entry : TcEntry
  score : Nat
  deriving Repr, DecidableEq

/-- Order induced by the comparator
`(a, b) => b.score - a.score || a.entry.id.localeCompare(b.entry.id)`:
`a` may precede `b` iff `a` has the larger score, or the scores tie and
`a.entry.id ≤ b.entry.id`. -/
def rankLe (a b : RankedEntry) : Bool :=
  b.score < a.score || (a.score == b.score && chLe a.entry.id b.entry.id)

/-- `rankLe` as a relation, for the stable sort. -/
def rankLeProp (a b : RankedEntry) : Prop := rankLe a b = true

instance : DecidableRel rankLeProp := fun a b => Bool.decEq _ _

/-- The sort in `rankEntries` is the stable JS `Array.prototype.sort` with the
comparator above, modelled by the stable `insertionSort`. -/
def rankEntries (entryIndex : List EntrySearchIndex) (query : Str) (limit : Nat) :
    List RankedEntry :=
  let queryLower := chToLower query
  ((((entryIndex.map (fun item => ⟨item.entry, scoreEntryMatch item queryLower⟩))
      |>.filter (fun r => r.score > 0 || queryLower.length == 0))
      |>.insertionSort rankLeProp)
      |>.take limit)

def isRequiredParam (paramName : Str) (kind : Option Str) : Bool :=
  if paramName = [] || chToLower paramName = "filler".toList then false
  else
    match kind with
    | none => true
    | some k =>
        if k = [] then true
        else if chToUpper k = "A".toList then false
        else true

end Scos

namespace Scos

/-! ## Lexicographic-order lemmas -/

theorem chLt_irrefl : ∀ a : Str, chLt a a = false
  | [] => rfl
  | c :: rest => by simp [chLt, chLt_irrefl rest]

theorem chLt_trans : ∀ a b c : Str, chLt a b = true → chLt b c = true → chLt a c = true
  | a, [], _, hab, _ => by cases a <;> simp [chLt] at hab
  | _ :: _, _ :: _, [], _, hbc => by simp [chLt] at hbc
  | [], _ :: _, _ :: _, _, _ => rfl
  | x :: xs, y :: ys, z :: zs, hab, hbc => by
      simp only [chLt, Bool.or_eq_true, Bool.and_eq_true, decide_eq_true_eq] at hab hbc ⊢
      rcases hab with h1 | ⟨h1, h1'⟩ <;> rcases hbc with h2 | ⟨h2, h2'⟩
      · exact Or.inl (lt_trans h1 h2)
      · exact Or.inl (h2 ▸ h1)
      · exact Or.inl (h1 ▸ h2)
      · exact Or.inr ⟨h1.trans h2, chLt_trans xs ys zs h1' h2'⟩

theorem chLt_trichotomy : ∀ a b : Str, chLt a b = true ∨ a = b ∨ chLt b a = true
  | [], [] => Or.inr (Or.inl rfl)
  | [], _ :: _ => Or.inl rfl
  | _ :: _, [] => Or.inr (Or.inr rfl)
  | x :: xs, y :: ys => by
      rcases lt_trichotomy x y with h | h | h
      · exact Or.inl (by simp [chLt, h])
      · subst h
        rcases chLt_trichotomy xs ys with h' | h' | h'
        · exact Or.inl (by simp [chLt, h'])
        · exact Or.inr (Or.inl (by rw [h']))
        · exact Or.inr (Or.inr (by simp [chLt, h']))
      · exact Or.inr (Or.inr (by simp [chLt, h]))

theorem chLt_asymm {a b : Str} (h : chLt a b = true) : chLt b a = false := by
  by_contra hc
  rw [Bool.not_eq_false] at hc
  have := chLt_trans a b a h hc
  rw [chLt_irrefl] at this
  cases this

theorem chLe_total (a b : Str) : chLe a b = true ∨ chLe b a = true := by
  unfold chLe
  rcases chLt_trichotomy a b with h | h | h
  · exact Or.inl (by simp [chLt_asymm h])
  · subst h; exact Or.inl (by simp [chLt_irrefl])
  · exact Or.inr (by simp [chLt_asymm h])

theorem chLe_trans {a b c : Str} (hab : chLe a b = true) (hbc : chLe b c = true) :
    chLe a c = true := by
  unfold chLe at *
  simp only [Bool.not_eq_true'] at hab hbc
  simp only [Bool.not_eq_true']
  by_contra hca
  rw [Bool.not_eq_false] at hca
  rcases chLt_trichotomy b c with h | h | h
  · have := chLt_trans b c a h hca
    rw [hab] at this; cases this
  · subst h; rw [hca] at hab; cases hab
  · rw [hbc] at h; cases h

theorem strLe_isTotal : IsTotal Str strLeProp := ⟨chLe_total⟩

theorem strLe_isTrans : IsTrans Str strLeProp := ⟨fun _ _ _ => chLe_trans⟩

theorem rankLe_isTotal : IsTotal RankedEntry rankLeProp := by
  constructor
  intro a b
  unfold rankLeProp rankLe
  rcases Nat.lt_trichotomy a.score b.score with h | h | h
  · exact Or.inr (by simp [h])
  · rcases chLe_total a.entry.id b.entry.id with h' | h' <;>
      [exact Or.inl (by simp [h, h']); exact Or.inr (by simp [h, h'])]
  · exact Or.inl (by simp [h])

theorem rankLe_isTrans : IsTrans RankedEntry rankLeProp := by
  constructor
  intro a b c hab hbc
  unfold rankLeProp rankLe at *
  simp only [Bool.or_eq_true, Bool.and_eq_true, decide_eq_true_eq, beq_iff_eq] at hab hbc ⊢
  rcases hab with h1 | ⟨h1, h1'⟩ <;> rcases hbc with h2 | ⟨h2, h2'⟩
  · exact Or.inl (lt_trans h2 h1)
  · exact Or.inl (h2 ▸ h1)
  · exact Or.inl (h1 ▸ h2)
  · exact Or.inr ⟨h1.trans h2, chLe_trans h1' h2'⟩

/-! ## JsMap lemmas -/

theorem mapGet_mapSet_self {α : Type} (m : JsMap α) (k : Str) (v : α) :
    mapGet (mapSet m k v) k = some v := by
  induction m with
  | nil => simp [mapSet, mapGet]
  | cons hd tl ih =>
      obtain ⟨k', v'⟩ := hd
      by_cases h : k' = k
      · subst h; simp [mapSet, mapGet]
      · simp [mapSet, mapGet, h, ih]

theorem mapGet_mapSet_ne {α : Type} (m : JsMap α) (k k' : Str) (v : α) (h : k' ≠ k) :
    mapGet (mapSet m k v) k' = mapGet m k' := by
  induction m with
  | nil => simp [mapSet, mapGet, Ne.symm h]
  | cons hd tl ih =>
      obtain ⟨k₀, v₀⟩ := hd
      by_cases h0 : k₀ = k
      · subst h0
        simp [mapSet, mapGet, Ne.symm h]
      · simp [mapSet, mapGet, h0, ih]

theorem mapKeys_mapSet_mem {α : Type} (m : JsMap α) (k : Str) (v : α)
    (h : (mapGet m k).isSome) : mapKeys (mapSet m k v) = mapKeys m := by
  induction m with
  | nil => simp [mapGet] at h
  | cons hd tl ih =>
      obtain ⟨k₀, v₀⟩ := hd
      by_cases h0 : k₀ = k
      · subst h0; simp [mapSet, mapKeys]
      · simp only [mapGet, if_neg h0] at h
        have hh := ih h
        simp only [mapKeys] at hh
        simp [mapSet, mapKeys, h0, hh]

theorem mapKeys_mapSet_not_mem {α : Type} (m : JsMap α) (k : Str) (v : α)
    (h : mapGet m k = none) : mapKeys (mapSet m k v) = mapKeys m ++ [k] := by
  induction m with
  | nil => simp [mapSet, mapKeys]
  | cons hd tl ih =>
      obtain ⟨k₀, v₀⟩ := hd
      by_cases h0 : k₀ = k
      · subst h0; simp [mapGet] at h
      · simp only [mapGet, if_neg h0] at h
        have hh := ih h
        simp only [mapKeys] at hh
        simp [mapSet, mapKeys, h0, hh]

/-- Value-map over a `JsMap` commutes with `mapGet`. -/
theorem mapGet_mapValues {α β : Type} (f : α → β) (m : JsMap α) (k : Str) :
    mapGet (m.map (fun kv => (kv.1, f kv.2))) k = (mapGet m k).map f := by
  induction m with
  | nil => simp [mapGet]
  | cons hd tl ih =>
      obtain ⟨k₀, v₀⟩ := hd
      by_cases h0 : k₀ = k
      · subst h0; simp [mapGet]
      · simp [mapGet, h0, ih]

/-! ## CDF fold lemmas -/

theorem appendParams_nil (e : TcEntry) : appendParams [] e = e := by
  simp [appendParams]

theorem appendParams_append (a b : List ParamEntry) (e : TcEntry) :
    appendParams b (appendParams a e) = appendParams (a ++ b) e := by
  simp [appendParams]

theorem cdfNewParams_cons (k l : Str) (ls : List Str) :
    cdfNewParams k (l :: ls) = (cdfRowParamOpt k l).toList ++ cdfNewParams k ls := by
  cases h : cdfRowParamOpt k l <;> simp [cdfNewParams, List.filterMap_cons, h]

theorem mapGet_cdfStep (m : JsMap TcEntry) (line k : Str) :
    mapGet (cdfStep m line) k =
      (mapGet m k).map (appendParams (cdfRowParamOpt k line).toList) := by
  unfold cdfStep cdfRowParamOpt
  by_cases hskip : skipLine line
  · simp only [hskip, if_true, Option.toList_none]
    cases mapGet m k <;> simp [appendParams]
  · simp only [hskip, Bool.false_eq_true, if_false]
    by_cases hid : col (splitDatLine line) 0 = []
    · simp only [hid, if_true, Option.toList_none]
      cases mapGet m k <;> simp [appendParams]
    · simp only [hid, if_false]
      by_cases hk : col (splitDatLine line) 0 = k
      · subst hk
        cases htgt : mapGet m (col (splitDatLine line) 0) with
        | none => simp [htgt]
        | some target =>
            simp only [htgt, if_pos rfl, Option.toList_some]
            rw [mapGet_mapSet_self]
            simp [appendParams]
      · cases htgt : mapGet m (col (splitDatLine line) 0) with
        | none =>
            simp only [htgt, hk, if_false, Option.toList_none]
            cases mapGet m k <;> simp [appendParams]
        | some target =>
            simp only [htgt, hk, if_false, Option.toList_none]
            rw [mapGet_mapSet_ne _ _ _ _ (fun hh => hk hh.symm)]
            cases mapGet m k <;> simp [appendParams]

theorem mapGet_parseCdfLines (lines : List Str) (m : JsMap TcEntry) (k : Str) :
    mapGet (parseCdfLines lines m) k =
      (mapGet m k).map (appendParams (cdfNewParams k lines)) := by
  induction lines generalizing m with
  | nil =>
      cases h : mapGet m k <;> simp [parseCdfLines, cdfNewParams, appendParams, h]
  | cons l ls ih =>
      show mapGet (List.foldl cdfStep (cdfStep m l) ls) k = _
      rw [show List.foldl cdfStep (cdfStep m l) ls = parseCdfLines ls (cdfStep m l) from rfl]
      rw [ih (cdfStep m l), mapGet_cdfStep, cdfNewParams_cons]
      cases mapGet m k <;> simp [appendParams]

theorem mapKeys_cdfStep (m : JsMap TcEntry) (line : Str) :
    mapKeys (cdfStep m line) = mapKeys m := by
  unfold cdfStep
  by_cases hskip : skipLine line
  · simp [hskip]
  · simp only [hskip, Bool.false_eq_true, if_false]
    by_cases hid : col (splitDatLine line) 0 = []
    · simp [hid]
    · simp only [hid, if_false]
      cases htgt : mapGet m (col (splitDatLine line) 0) with
      | none => simp [htgt]
      | some target =>
          simp only [htgt]
          exact mapKeys_mapSet_mem _ _ _ (by simp [htgt])

theorem mapKeys_parseCdfLines (lines : List Str) (m : JsMap TcEntry) :
    mapKeys (parseCdfLines lines m) = mapKeys m := by
  induction lines generalizing m with
  | nil => rfl
  | cons l ls ih =>
      show mapKeys (List.foldl cdfStep (cdfStep m l) ls) = _
      rw [show List.foldl cdfStep (cdfStep m l) ls = parseCdfLines ls (cdfStep m l) from rfl]
      rw [ih (cdfStep m l), mapKeys_cdfStep]

theorem cdfAllNewParams_cons (k : Str) (f : DatFile) (fs : List DatFile) :
    cdfAllNewParams k (f :: fs) = cdfNewParams k f.lines ++ cdfAllNewParams k fs := by
  simp [cdfAllNewParams]

theorem cdfNewParams_raws (k : Str) (lines : List Str) :
    (cdfNewParams k lines).map ParamEntry.raw =
      lines.filterMap (fun line =>
        if skipLine line then none
        else if col (splitDatLine line) 0 = [] then none
        else if col (splitDatLine line) 0 = k then some (splitDatLine line)
        else none) := by
  induction lines with
  | nil => rfl
  | cons l ls ih =>
      rw [cdfNewParams_cons]
      unfold cdfRowParamOpt
      by_cases hskip : skipLine l
      · simp [hskip, List.filterMap_cons, ih]
      · by_cases hid : col (splitDatLine l) 0 = []
        · simp [hskip, hid, List.filterMap_cons, ih]
        · by_cases hk : col (splitDatLine l) 0 = k
          · have hknil : k ≠ [] := hk ▸ hid
            simp [hskip, hid, hk, hknil, List.filterMap_cons, ih, cdfRowParam]
          · simp [hskip, hid, hk, List.filterMap_cons, ih]

theorem cdfAllNewParams_raws (k : Str) (files : List DatFile) :
    (cdfAllNewParams k files).map ParamEntry.raw = cdfMatchingRows k files := by
  induction files with
  | nil => rfl
  | cons f fs ih =>
      unfold cdfAllNewParams cdfMatchingRows at *
      simp only [List.map_cons, List.flatten_cons, List.map_append]
      rw [ih, cdfNewParams_raws]

theorem mapGet_cdfFiles (files : List DatFile) (m : JsMap TcEntry) (k : Str) :
    mapGet (files.foldl (fun m f => parseCdfLines f.lines m) m) k =
      (mapGet m k).map (appendParams (cdfAllNewParams k files)) := by
  induction files generalizing m with
  | nil => cases h : mapGet m k <;> simp [cdfAllNewParams, appendParams, h]
  | cons f fs ih =>
      show mapGet (fs.foldl (fun m f => parseCdfLines f.lines m) (parseCdfLines f.lines m)) k = _
      rw [ih (parseCdfLines f.lines m), mapGet_parseCdfLines, cdfAllNewParams_cons]
      cases mapGet m k <;> simp [appendParams]

theorem mapKeys_cdfFiles (files : List DatFile) (m : JsMap TcEntry) :
    mapKeys (files.foldl (fun m f => parseCdfLines f.lines m) m) = mapKeys m := by
  induction files generalizing m with
  | nil => rfl
  | cons f fs ih =>
      show mapKeys (fs.foldl (fun m f => parseCdfLines f.lines m) (parseCdfLines f.lines m)) = _
      rw [ih (parseCdfLines f.lines m), mapKeys_parseCdfLines]

/-! ## Claim C10: `parseCdfLines` only appends -/

/-- C10: `parseCdfLines` only appends: the key set of `tcById` is unchanged;
for every pre-existing entry, the result is exactly the old entry with the
matching rows' parameters appended after the old ones (so every pre-existing
`ParamEntry` keeps its value and position and every other field is unchanged);
and an entry whose id matches no kept row is entirely unchanged. -/
theorem parseCdfLines_appendOnly (lines : List Str) (m : JsMap TcEntry) :
    mapKeys (parseCdfLines lines m) = mapKeys m ∧
    (∀ k e, mapGet m k = some e →
      mapGet (parseCdfLines lines m) k =
        some { e with params := e.params ++ cdfNewParams k lines } ∧
      (cdfNewParams k lines = [] → mapGet (parseCdfLines lines m) k = some e)) := by
  refine ⟨mapKeys_parseCdfLines lines m, fun k e h => ?_⟩
  have h1 := mapGet_parseCdfLines lines m k
  rw [h] at h1
  constructor
  · simpa [appendParams] using h1
  · intro hnil
    rw [hnil] at h1
    simpa [appendParams] using h1

/-- Witness for C10: a concrete map and line list, with one matching row, one
row for an unknown id, and one comment. -/
theorem parseCdfLines_appendOnly_witness :
    (mapGet
        (parseCdfLines ["A\tB\tPX".toList, "Z\tB\tPY".toList, "# c".toList]
          [("A".toList,
            { id := "A".toList, sourcePath := "p".toList, sourceLine := 1,
              params := [] })])
        "A".toList =
      some { id := "A".toList, sourcePath := "p".toList, sourceLine := 1,
             params := [] ++ cdfNewParams "A".toList
               ["A\tB\tPX".toList, "Z\tB\tPY".toList, "# c".toList] }) := by
  exact ((parseCdfLines_appendOnly
    ["A\tB\tPX".toList, "Z\tB\tPY".toList, "# c".toList]
    [("A".toList,
      { id := "A".toList, sourcePath := "p".toList, sourceLine := 1, params := [] })]).2
    "A".toList
    { id := "A".toList, sourcePath := "p".toList, sourceLine := 1, params := [] }
    (by decide)).1

/-! ## CCF lemmas -/

theorem ccfRowEntry_isSome (sp : Str) (i : Nat) (line : Str) :
    (ccfRowEntry sp i line).isSome = ccfKeeps line := by
  unfold ccfRowEntry ccfKeeps
  by_cases hskip : skipLine line
  · simp [hskip]
  · by_cases hid : col (splitDatLine line) 0 = [] <;> simp [hskip, hid]

theorem ccfRowEntry_some {sp : Str} {i : Nat} {line : Str} {e : TcEntry}
    (h : ccfRowEntry sp i line = some e) :
    e.params = [] ∧ e.id = col (splitDatLine line) 0 ∧ e.id ≠ [] := by
  unfold ccfRowEntry at h
  by_cases hskip : skipLine line
  · simp [hskip] at h
  · by_cases hid : col (splitDatLine line) 0 = []
    · simp [hskip, hid] at h
    · simp only [hskip, Bool.false_eq_true, if_false, hid] at h
      cases h
      exact ⟨rfl, rfl, hid⟩

theorem parseCcfLinesAux_length (sp : Str) (i : Nat) (lines : List Str) :
    (parseCcfLinesAux sp i lines).length = (lines.filter ccfKeeps).length := by
  induction lines generalizing i with
  | nil => rfl
  | cons l ls ih =>
      have hs := ccfRowEntry_isSome sp i l
      cases h : ccfRowEntry sp i l with
      | none =>
          rw [h] at hs
          simp only [Option.isSome_none] at hs
          simp [parseCcfLinesAux, h, List.filter_cons, ← hs, ih]
      | some e =>
          rw [h] at hs
          simp only [Option.isSome_some] at hs
          simp [parseCcfLinesAux, h, List.filter_cons, ← hs, ih]

theorem parseCcfLinesAux_ids (sp : Str) (i : Nat) (lines : List Str) :
    (parseCcfLinesAux sp i lines).map TcEntry.id =
      (lines.filter ccfKeeps).map (fun l => col (splitDatLine l) 0) := by
  induction lines generalizing i with
  | nil => rfl
  | cons l ls ih =>
      have hs := ccfRowEntry_isSome sp i l
      cases h : ccfRowEntry sp i l with
      | none =>
          rw [h] at hs
          simp only [Option.isSome_none] at hs
          simp [parseCcfLinesAux, h, List.filter_cons, ← hs, ih]
      | some e =>
          rw [h] at hs
          simp only [Option.isSome_some] at hs
          simp [parseCcfLinesAux, h, List.filter_cons, ← hs, ih,
            (ccfRowEntry_some h).2.1]

theorem mem_parseCcfLinesAux {e : TcEntry} {sp : Str} {i : Nat} {lines : List Str}
    (h : e ∈ parseCcfLinesAux sp i lines) : e.params = [] := by
  induction lines generalizing i with
  | nil => cases h
  | cons l ls ih =>
      cases hr : ccfRowEntry sp i l with
      | none =>
          rw [parseCcfLinesAux, hr] at h
          exact ih h
      | some e' =>
          rw [parseCcfLinesAux, hr] at h
          rcases List.mem_cons.mp h with rfl | h'
          · exact (ccfRowEntry_some hr).1
          · exact ih h'

theorem mem_allCcfEntries {e : TcEntry} {files : List DatFile}
    (h : e ∈ allCcfEntries files) : e.params = [] := by
  unfold allCcfEntries at h
  rw [List.mem_flatten] at h
  obtain ⟨l, hl, hel⟩ := h
  rw [List.mem_map] at hl
  obtain ⟨f, hf, rfl⟩ := hl
  exact mem_parseCcfLinesAux hel

theorem ccfInsert_fold_fst (entries : List TcEntry) (maps : JsMap TcEntry × JsMap TcEntry) :
    (entries.foldl ccfInsertEntry maps).1 =
      entries.foldl (fun m e => mapSet m e.id e) maps.1 := by
  induction entries generalizing maps with
  | nil => rfl
  | cons e es ih => exact ih (ccfInsertEntry maps e)

theorem buildCcfMaps_fst_general (files : List DatFile)
    (maps : JsMap TcEntry × JsMap TcEntry) :
    (files.foldl
        (fun maps file => (parseCcfLines file.lines file.path).foldl ccfInsertEntry maps)
        maps).1 =
      (allCcfEntries files).foldl (fun m e => mapSet m e.id e) maps.1 := by
  induction files generalizing maps with
  | nil => rfl
  | cons f fs ih =>
      show (fs.foldl _ ((parseCcfLines f.lines f.path).foldl ccfInsertEntry maps)).1 = _
      rw [ih, ccfInsert_fold_fst]
      rw [show allCcfEntries (f :: fs) = parseCcfLines f.lines f.path ++ allCcfEntries fs
        from by simp [allCcfEntries]]
      rw [List.foldl_append]

theorem buildCcfMaps_fst (files : List DatFile) :
    (buildCcfMaps files).1 = (allCcfEntries files).foldl (fun m e => mapSet m e.id e) [] :=
  buildCcfMaps_fst_general files ([], [])

theorem mapGet_idFold_mem (entries : List TcEntry) (m : JsMap TcEntry) (k : Str)
    (v : TcEntry)
    (h : mapGet (entries.foldl (fun m e => mapSet m e.id e) m) k = some v) :
    (v ∈ entries ∧ v.id = k) ∨ mapGet m k = some v := by
  induction entries generalizing m with
  | nil => exact Or.inr h
  | cons e es ih =>
      rcases ih (mapSet m e.id e) h with h1 | h1
      · exact Or.inl ⟨List.mem_cons_of_mem _ h1.1, h1.2⟩
      · by_cases hk : e.id = k
        · subst hk
          rw [mapGet_mapSet_self] at h1
          cases h1
          exact Or.inl ⟨List.mem_cons_self _ _, rfl⟩
        · rw [mapGet_mapSet_ne m e.id k e (fun hh => hk hh.symm)] at h1
          exact Or.inr h1

theorem mapKeys_idFold_nodup (entries : List TcEntry) (m : JsMap TcEntry)
    (hnd : (entries.map TcEntry.id).Nodup)
    (hdis : ∀ e ∈ entries, mapGet m e.id = none) :
    mapKeys (entries.foldl (fun m e => mapSet m e.id e) m) =
      mapKeys m ++ entries.map TcEntry.id := by
  induction entries generalizing m with
  | nil => simp
  | cons e es ih =>
      simp only [List.map_cons, List.nodup_cons] at hnd
      have h1 : mapGet m e.id = none := hdis e (List.mem_cons_self _ _)
      have hdis' : ∀ x ∈ es, mapGet (mapSet m e.id e) x.id = none := by
        intro x hx
        have hne : x.id ≠ e.id := fun hh => hnd.1 (hh ▸ List.mem_map_of_mem TcEntry.id hx)
        rw [mapGet_mapSet_ne m e.id x.id e hne]
        exact hdis x (List.mem_cons_of_mem _ hx)
      show mapKeys (es.foldl _ (mapSet m e.id e)) = _
      rw [ih (mapSet m e.id e) hnd.2 hdis', mapKeys_mapSet_not_mem m e.id e h1]
      simp

/-! ## CVE / CVP pass lemmas -/

theorem cveAttachParam_raw (vm : JsMap (List Str)) (p : ParamEntry) :
    (cveAttachParam vm p).raw = p.raw := by
  unfold cveAttachParam
  cases hp : p.paramId with
  | none => rfl
  | some pid =>
      by_cases hnil : pid = []
      · simp [hnil]
      · cases hv : mapGet vm pid <;> simp [hnil, hv]

theorem cveAttachParam_paramId (vm : JsMap (List Str)) (p : ParamEntry) :
    (cveAttachParam vm p).paramId = p.paramId := by
  unfold cveAttachParam
  cases hp : p.paramId with
  | none => exact hp
  | some pid =>
      by_cases hnil : pid = []
      · simp [hnil, hp]
      · cases hv : mapGet vm pid <;> simp [hnil, hv, hp]

theorem mapGet_parseCveLines (lines : List Str) (m : JsMap TcEntry) (k : Str) :
    mapGet (parseCveLines lines m) k =
      (mapGet m k).map
        (fun e => { e with params := e.params.map (cveAttachParam (cveCollect lines)) }) := by
  unfold parseCveLines
  exact mapGet_mapValues
    (fun e => { e with params := e.params.map (cveAttachParam (cveCollect lines)) }) m k

theorem cve_files_preserve (files : List DatFile) (m : JsMap TcEntry) (k : Str)
    (e : TcEntry)
    (h : mapGet (files.foldl (fun m f => parseCveLines f.lines m) m) k = some e) :
    ∃ e₀, mapGet m k = some e₀ ∧ e.id = e₀.id ∧
      e.params.map ParamEntry.raw = e₀.params.map ParamEntry.raw := by
  induction files generalizing m e with
  | nil => exact ⟨e, h, rfl, rfl⟩
  | cons f fs ih =>
      obtain ⟨e₁, h₁, hid, hraw⟩ := ih (parseCveLines f.lines m) e h
      rw [mapGet_parseCveLines] at h₁
      cases hm : mapGet m k with
      | none => rw [hm] at h₁; cases h₁
      | some e₀ =>
          rw [hm] at h₁
          injection h₁ with h₁
          refine ⟨e₀, rfl, ?_, ?_⟩
          · rw [hid, ← h₁]
          · rw [hraw, ← h₁]
            simp [List.map_map, Function.comp, cveAttachParam_raw]

theorem cvp_files_id (files : List DatFile) (m : JsMap TcEntry) :
    files.foldl (fun m f => parseCvpLines f.lines m) m = m := by
  induction files generalizing m with
  | nil => rfl
  | cons f fs ih => exact ih m

/-! ## Claim C1: CCF row count vs indexed command count -/

/-- C1 as frozen is false: with two kept CCF rows sharing id "A", the kept
row count and `parseCcfLines` output count are 2, but `tcById` has 1 key. -/
theorem ccf_count_counterexample :
    ((["A\tN1".toList, "A\tN2".toList].filter ccfKeeps).length = 2 ∧
      (parseCcfLines ["A\tN1".toList, "A\tN2".toList] "p".toList).length = 2) ∧
    (buildMibIndexFromLines [⟨"p".toList, ["A\tN1".toList, "A\tN2".toList]⟩]
        [] [] [] [] [] [] []).tcById.length = 1 := by
  decide

/-- C1 amended: the number of entries returned by `parseCcfLines` always
equals the number of non-comment, non-blank lines with a non-empty first
tab-separated field; the number of `tcById` keys (when the builder is given
only that CCF file) also equals it provided no two such lines share the same
first field. -/
theorem ccf_count_spec (lines : List Str) (sp : Str) :
    (parseCcfLines lines sp).length = (lines.filter ccfKeeps).length ∧
    (((lines.filter ccfKeeps).map (fun l => col (splitDatLine l) 0)).Nodup →
      (buildMibIndexFromLines [⟨sp, lines⟩] [] [] [] [] [] [] []).tcById.length =
        (lines.filter ccfKeeps).length) := by
  constructor
  · exact parseCcfLinesAux_length sp 0 lines
  · intro hnd
    have hById : (buildMibIndexFromLines [⟨sp, lines⟩] [] [] [] [] [] [] []).tcById
        = (allCcfEntries [⟨sp, lines⟩]).foldl (fun m e => mapSet m e.id e) [] := by
      show (buildCcfMaps [⟨sp, lines⟩]).1 = _
      exact buildCcfMaps_fst _
    have hall : allCcfEntries [⟨sp, lines⟩] = parseCcfLines lines sp := by
      simp [allCcfEntries]
    have hnd' : ((allCcfEntries [⟨sp, lines⟩]).map TcEntry.id).Nodup := by
      rw [hall]
      rw [show (parseCcfLines lines sp).map TcEntry.id = _ from parseCcfLinesAux_ids sp 0 lines]
      exact hnd
    have hlen := mapKeys_idFold_nodup (allCcfEntries [⟨sp, lines⟩]) [] hnd'
      (fun e _ => rfl)
    rw [hById]
    have hk : ((allCcfEntries [⟨sp, lines⟩]).foldl (fun m e => mapSet m e.id e) []).length
        = (mapKeys ((allCcfEntries [⟨sp, lines⟩]).foldl (fun m e => mapSet m e.id e) [])).length := by
      simp [mapKeys]
    rw [hk, hlen, hall]
    simp [mapKeys, parseCcfLines, parseCcfLinesAux_length sp 0 lines]

/-- Witness for C1's amended theorem at a concrete two-command CCF file. -/
theorem ccf_count_spec_witness :
    (buildMibIndexFromLines [⟨"p".toList, ["A\tN1".toList, "B\tN2".toList]⟩]
        [] [] [] [] [] [] []).tcById.length =
      ((["A\tN1".toList, "B\tN2".toList]).filter ccfKeeps).length :=
  (ccf_count_spec ["A\tN1".toList, "B\tN2".toList] "p".toList).2 (by decide)

/-! ## Claim C2: params sequence = matching CDF rows, file-then-row -/

/-- C2 as frozen is false for `tcByName` entries: with two kept CCF rows
sharing id "A" under names "N1" and "N2", the entry still reachable under
"N1" was overwritten in `tcById` before the CDF pass, so it has 0 params
although 1 CDF row matches its id. -/
theorem cdf_byName_counterexample :
    (mapGet (buildMibIndexFromLines [⟨"p".toList, ["A\tN1".toList, "A\tN2".toList]⟩]
        [⟨"c".toList, ["A\tB\tPX".toList]⟩] [] [] [] [] [] []).tcByName "N1".toList).map
        (fun e => (e.id, e.params.length)) = some ("A".toList, 0) ∧
    (cdfMatchingRows "A".toList [⟨"c".toList, ["A\tB\tPX".toList]⟩]).length = 1 := by
  decide

/-- C2 amended (restricted to `tcById`, the id-keyed index): every entry of
`tcById` has one `ParamEntry` per kept CDF row whose col0 equals its id, in
file-then-row order — stated as: the `raw` column lists of its params are
exactly the tokenized matching rows, file-then-row. -/
theorem tcById_params_spec (ccfFiles cdfFiles pidFiles plfFiles pcfFiles cveFiles
    cvpFiles txpFiles : List DatFile) (k : Str) (e : TcEntry)
    (h : mapGet (buildMibIndexFromLines ccfFiles cdfFiles pidFiles plfFiles pcfFiles
        cveFiles cvpFiles txpFiles).tcById k = some e) :
    e.id = k ∧ e.params.map ParamEntry.raw = cdfMatchingRows k cdfFiles := by
  have h' : mapGet (cvpFiles.foldl (fun m f => parseCvpLines f.lines m)
      (cveFiles.foldl (fun m f => parseCveLines f.lines m)
        (cdfFiles.foldl (fun m f => parseCdfLines f.lines m)
          (buildCcfMaps ccfFiles).1))) k = some e := h
  rw [cvp_files_id] at h'
  obtain ⟨e₂, h₂, hid₂, hraw₂⟩ := cve_files_preserve cveFiles _ k e h'
  rw [mapGet_cdfFiles] at h₂
  cases hm : mapGet (buildCcfMaps ccfFiles).1 k with
  | none => rw [hm] at h₂; cases h₂
  | some e₁ =>
      rw [hm] at h₂
      injection h₂ with h₂
      have he₁ : (e₁ ∈ allCcfEntries ccfFiles ∧ e₁.id = k) ∨
          mapGet ([] : JsMap TcEntry) k = some e₁ := by
        apply mapGet_idFold_mem
        rw [← buildCcfMaps_fst]
        exact hm
      rcases he₁ with ⟨hmem, hid₁⟩ | hbad
      · have hparams₁ : e₁.params = [] := mem_allCcfEntries hmem
        constructor
        · rw [hid₂, ← h₂]
          simp [appendParams, hid₁]
        · rw [hraw₂, ← h₂]
          simp [appendParams, hparams₁]
          exact cdfAllNewParams_raws k cdfFiles
      · cases hbad

/-- Witness for C2's amended theorem: one CCF command, two CDF files with
three matching rows (and one non-matching), checked concretely. -/
theorem tcById_params_spec_witness :
    (mapGet (buildMibIndexFromLines [⟨"p".toList, ["A\tN".toList]⟩]
        [⟨"c1".toList, ["A\tB\tP1".toList, "Z\tB\tPX".toList, "A\tB\tP2".toList]⟩,
         ⟨"c2".toList, ["A\tB\tP3".toList]⟩] [] [] [] [] [] []).tcById "A".toList).map
        (fun e => (e.id, e.params.map ParamEntry.raw)) =
      some ("A".toList,
        cdfMatchingRows "A".toList
          [⟨"c1".toList, ["A\tB\tP1".toList, "Z\tB\tPX".toList, "A\tB\tP2".toList]⟩,
           ⟨"c2".toList, ["A\tB\tP3".toList]⟩]) := by
  cases h : mapGet (buildMibIndexFromLines [⟨"p".toList, ["A\tN".toList]⟩]
      [⟨"c1".toList, ["A\tB\tP1".toList, "Z\tB\tPX".toList, "A\tB\tP2".toList]⟩,
       ⟨"c2".toList, ["A\tB\tP3".toList]⟩] [] [] [] [] [] []).tcById "A".toList with
  | none => exact absurd h (by decide)
  | some e =>
      have hspec := tcById_params_spec [⟨"p".toList, ["A\tN".toList]⟩]
        [⟨"c1".toList, ["A\tB\tP1".toList, "Z\tB\tPX".toList, "A\tB\tP2".toList]⟩,
         ⟨"c2".toList, ["A\tB\tP3".toList]⟩] [] [] [] [] [] [] "A".toList e h
      rw [Option.map_some', hspec.1, hspec.2]

/-! ## Claim C5: PCF merge policy -/

theorem pcfRowEntry_eq (line : Str) :
    pcfRowEntry line =
      if skipLine line then none
      else if col (splitDatLine line) 0 = [] then none
      else some (pcfEntryOfLine line) := rfl

theorem pcfKeepsFor_true {k line : Str} (h : pcfKeepsFor k line = true) :
    skipLine line = false ∧ col (splitDatLine line) 0 ≠ [] ∧
      col (splitDatLine line) 0 = k := by
  unfold pcfKeepsFor at h
  simp only [Bool.and_eq_true, Bool.not_eq_true', decide_eq_true_eq] at h
  exact ⟨h.1.1, h.1.2, h.2⟩

theorem pcfEntryOfLine_paramId (line : Str) :
    (pcfEntryOfLine line).paramId = col (splitDatLine line) 0 := rfl

theorem mapGet_pcfFold (lines : List Str) (m : JsMap PcfEntry) (k : Str) :
    mapGet
      (lines.foldl
        (fun m line =>
          match pcfRowEntry line with
          | none => m
          | some e => mapSet m e.paramId e)
        m) k =
      ((lines.reverse.find? (pcfKeepsFor k)).map pcfEntryOfLine).or (mapGet m k) := by
  induction lines generalizing m with
  | nil => simp
  | cons l ls ih =>
      show mapGet (ls.foldl _ _) k = _
      rw [ih]
      rw [show (l :: ls).reverse = ls.reverse ++ [l] from by simp]
      rw [List.find?_append]
      cases hfind : ls.reverse.find? (pcfKeepsFor k) with
      | some l' => simp
      | none =>
          simp only [Option.map_none', Option.none_or]
          by_cases hkeep : pcfKeepsFor k l = true
          · obtain ⟨hskip, hid, hcol⟩ := pcfKeepsFor_true hkeep
            have hskip' : ¬(skipLine l = true) := by simp [hskip]
            rw [List.find?_cons_of_pos _ hkeep]
            rw [pcfRowEntry_eq, if_neg hskip', if_neg hid]
            show mapGet (mapSet m (pcfEntryOfLine l).paramId (pcfEntryOfLine l)) k =
              ((some l).map pcfEntryOfLine).or (mapGet m k)
            rw [pcfEntryOfLine_paramId, hcol, mapGet_mapSet_self]
            simp
          · rw [List.find?_cons_of_neg _ hkeep]
            simp only [List.find?_nil, Option.map_none', Option.none_or]
            rw [pcfRowEntry_eq]
            by_cases hskip : skipLine l = true
            · rw [if_pos hskip]
            · rw [if_neg hskip]
              by_cases hid : col (splitDatLine l) 0 = []
              · rw [if_pos hid]
              · rw [if_neg hid]
                have hne : col (splitDatLine l) 0 ≠ k := by
                  intro hc
                  refine hkeep ?_
                  unfold pcfKeepsFor
                  have hknil : ¬(k = []) := hc ▸ hid
                  simp [hskip, hid, hc, hknil]
                show mapGet (mapSet m (pcfEntryOfLine l).paramId (pcfEntryOfLine l)) k =
                  mapGet m k
                rw [pcfEntryOfLine_paramId]
                exact mapGet_mapSet_ne m _ k _ (fun hh => hne hh.symm)

theorem mapGet_parsePcfLines (lines : List Str) (k : Str) :
    mapGet (parsePcfLines lines) k =
      (lines.reverse.find? (pcfKeepsFor k)).map pcfEntryOfLine := by
  have h := mapGet_pcfFold lines [] k
  rw [show mapGet ([] : JsMap PcfEntry) k = none from rfl, Option.or_none] at h
  exact h

theorem mapGet_mergeKeepFirst (entries : JsMap PcfEntry) (acc : JsMap PcfEntry) (k : Str) :
    mapGet
      (entries.foldl
        (fun acc kv => if (mapGet acc kv.1).isSome then acc else mapSet acc kv.1 kv.2)
        acc) k =
      (mapGet acc k).or (mapGet entries k) := by
  induction entries generalizing acc with
  | nil => simp [mapGet]
  | cons kv rest ih =>
      obtain ⟨k₀, v₀⟩ := kv
      show mapGet (rest.foldl _ _) k = _
      rw [ih]
      by_cases hacc : (mapGet acc k₀).isSome
      · simp only [hacc, if_true]
        by_cases hk : k₀ = k
        · subst hk
          obtain ⟨v, hv⟩ := Option.isSome_iff_exists.mp hacc
          simp [mapGet, hv]
        · simp [mapGet, hk]
      · simp only [hacc, Bool.false_eq_true, if_false]
        by_cases hk : k₀ = k
        · subst hk
          rw [mapGet_mapSet_self]
          rw [Option.not_isSome_iff_eq_none] at hacc
          simp [mapGet, hacc]
        · rw [mapGet_mapSet_ne acc k₀ k v₀ (fun hh => hk hh.symm)]
          simp [mapGet, hk]

theorem mapGet_buildPcfFold (files : List DatFile) (m : JsMap PcfEntry) (k : Str) :
    mapGet
      (files.foldl
        (fun acc file =>
          (parsePcfLines file.lines).foldl
            (fun acc kv => if (mapGet acc kv.1).isSome then acc else mapSet acc kv.1 kv.2)
            acc)
        m) k =
      (mapGet m k).or (files.findSome? (fun f => mapGet (parsePcfLines f.lines) k)) := by
  induction files generalizing m with
  | nil => simp [List.findSome?_nil]
  | cons f fs ih =>
      show mapGet (fs.foldl _ _) k = _
      rw [ih, mapGet_mergeKeepFirst]
      rw [List.findSome?_cons]
      cases h : mapGet (parsePcfLines f.lines) k <;>
        cases hm : mapGet m k <;> simp [Option.or]

/-- C5 as frozen is false within one file: `parsePcfLines` retains the LAST
occurrence of a duplicate paramId (`entries.set` overwrites unconditionally),
not the first: with rows `P1\tN1` then `P1\tN2` it keeps name "N2", while the
first occurrence's name is "N1". -/
theorem pcf_first_wins_counterexample :
    (mapGet (parsePcfLines ["P1\tN1".toList, "P1\tN2".toList]) "P1".toList).map
        PcfEntry.name = some (some "N2".toList) ∧
    (pcfEntryOfLine "P1\tN1".toList).name = some "N1".toList ∧
    "N2".toList ≠ "N1".toList := by
  decide

/-- C5 amended: within one file, the entry retained for a paramId is that of
the LAST kept row with that col0 (`parsePcfLines` = last-wins); across files,
the builder's guarded merge keeps the entry of the FIRST file whose parsed map
contains the paramId (first-file-wins at file granularity). -/
theorem pcf_merge_spec (lines : List Str) (files : List DatFile) (k : Str) :
    mapGet (parsePcfLines lines) k =
      (lines.reverse.find? (pcfKeepsFor k)).map pcfEntryOfLine ∧
    mapGet (buildPcfByParamId files) k =
      files.findSome? (fun f => mapGet (parsePcfLines f.lines) k) := by
  constructor
  · exact mapGet_parsePcfLines lines k
  · have h := mapGet_buildPcfFold files [] k
    rw [show mapGet ([] : JsMap PcfEntry) k = none from rfl] at h
    unfold buildPcfByParamId
    rw [h]
    cases files.findSome? (fun f => mapGet (parsePcfLines f.lines) k) <;> simp [Option.or]

/-! ## Claim C7: silent skipping of key-less rows and foreign-key misses -/

/-- C7: a row lacking its mandatory key column produces no record and leaves
every collection unchanged (CCF id = col0, CDF tcId = col0, PID sid = col5,
PLF paramId = col0 / sid = col1, PCF paramId = col0), and a CDF row whose
tcId is not in `tcById`, or a PLF row whose sid is not in `telemetryBySid`,
is likewise silently dropped: no entry is created and no error is raised
(every parser is total). -/
theorem parsers_skip_spec (line sp : Str) (i : Nat) (mTc : JsMap TcEntry)
    (tel : JsMap TelemetryEntry) (pcf : JsMap PcfEntry) :
    (col (splitDatLine line) 0 = [] → ccfRowEntry sp i line = none) ∧
    (col (splitDatLine line) 0 = [] → cdfStep mTc line = mTc) ∧
    (col (splitDatLine line) 5 = [] → pidRowEntry sp i line = none) ∧
    (col (splitDatLine line) 0 = [] ∨ col (splitDatLine line) 1 = [] →
      plfStep pcf tel line = tel) ∧
    (col (splitDatLine line) 0 = [] → pcfRowEntry line = none) ∧
    (mapGet mTc (col (splitDatLine line) 0) = none → cdfStep mTc line = mTc) ∧
    (mapGet tel (col (splitDatLine line) 1) = none → plfStep pcf tel line = tel) := by
  refine ⟨?_, ?_, ?_, ?_, ?_, ?_, ?_⟩
  · intro h
    unfold ccfRowEntry
    by_cases hskip : skipLine line <;> simp [hskip, h]
  · intro h
    unfold cdfStep
    by_cases hskip : skipLine line <;> simp [hskip, h]
  · intro h
    unfold pidRowEntry
    by_cases hskip : skipLine line <;> simp [hskip, h]
  · intro h
    unfold plfStep
    by_cases hskip : skipLine line <;> simp [hskip, h]
  · intro h
    unfold pcfRowEntry
    by_cases hskip : skipLine line <;> simp [hskip, h]
  · intro h
    unfold cdfStep
    by_cases hskip : skipLine line
    · simp [hskip]
    · by_cases hid : col (splitDatLine line) 0 = []
      · simp [hskip, hid]
      · simp [hskip, hid, h]
  · intro h
    unfold plfStep
    by_cases hskip : skipLine line
    · simp [hskip]
    · by_cases hids : col (splitDatLine line) 0 = [] ∨ col (splitDatLine line) 1 = []
      · simp [hskip, hids]
      · simp [hskip, hids, h]

/-- Witness for C7 at a concrete key-less row, a concrete unknown-id CDF row
and a concrete unknown-sid PLF row. -/
theorem parsers_skip_spec_witness :
    (ccfRowEntry "p".toList 0 "\tX\tY".toList = none) ∧
    (cdfStep [("A".toList,
        { id := "A".toList, sourcePath := "p".toList, sourceLine := 1, params := [] })]
      "B\tK\tN".toList =
      [("A".toList,
        { id := "A".toList, sourcePath := "p".toList, sourceLine := 1, params := [] })]) ∧
    (plfStep [] [("S".toList,
        { sid := "S".toList, sourcePath := "q".toList, sourceLine := 1, params := [] })]
      "P1\tT9".toList =
      [("S".toList,
        { sid := "S".toList, sourcePath := "q".toList, sourceLine := 1, params := [] })]) := by
  refine ⟨?_, ?_, ?_⟩
  · exact (parsers_skip_spec "\tX\tY".toList "p".toList 0 [] [] []).1 (by decide)
  · exact (parsers_skip_spec "B\tK\tN".toList "p".toList 0
      [("A".toList,
        { id := "A".toList, sourcePath := "p".toList, sourceLine := 1, params := [] })]
      [] []).2.2.2.2.2.1 (by decide)
  · exact (parsers_skip_spec "P1\tT9".toList "p".toList 0 []
      [("S".toList,
        { sid := "S".toList, sourcePath := "q".toList, sourceLine := 1, params := [] })]
      []).2.2.2.2.2.2 (by decide)

/-! ## Claim C9: CVE valueIds without E-rows attach empty enumerations -/

theorem sortStrings_nil : sortStrings [] = [] := rfl

theorem mapGet_cveCollectStep_noE (v : Str) (m : JsMap (List Str)) (l : Str)
    (hE : cveERowFor v l = false) :
    mapGet (cveCollectStep m l) v =
      if cveKeeps l = true ∧ col (splitDatLine l) 1 = v then some ((mapGet m v).getD [])
      else mapGet m v := by
  unfold cveCollectStep
  unfold cveERowFor at hE
  by_cases hskip : skipLine l
  · have hnk : ¬(cveKeeps l = true ∧ col (splitDatLine l) 1 = v) := by
      unfold cveKeeps
      simp [hskip]
    rw [if_neg hnk]
    simp [hskip]
  · by_cases hid : col (splitDatLine l) 1 = []
    · have hnk : ¬(cveKeeps l = true ∧ col (splitDatLine l) 1 = v) := by
        unfold cveKeeps
        simp [hskip, hid]
      rw [if_neg hnk]
      simp [hskip, hid]
    · by_cases hv : col (splitDatLine l) 1 = v
      · have hkeep : cveKeeps l = true := by unfold cveKeeps; simp [hskip, hid]
        have hnoE : ¬(col (splitDatLine l) 2 = "E".toList ∧
            col (splitDatLine l) 3 ≠ []) := by
          intro hc
          have htrue : (cveKeeps l && decide (col (splitDatLine l) 1 = v) &&
              decide (col (splitDatLine l) 2 = "E".toList) &&
              decide (col (splitDatLine l) 3 ≠ [])) = true := by
            simp [hkeep, hv, hc.1, hc.2]
          rw [htrue] at hE
          cases hE
        rw [if_pos (⟨hkeep, hv⟩ : cveKeeps l = true ∧ col (splitDatLine l) 1 = v)]
        cases hm : mapGet m v with
        | none =>
            simp only [hv, hm, Option.isSome_none, Bool.false_eq_true, if_false]
            rw [if_neg hskip, if_neg (hv ▸ hid), if_neg hnoE, mapGet_mapSet_self]
            rfl
        | some s =>
            simp only [hv, hm, Option.isSome_some, if_true]
            rw [if_neg hskip, if_neg (hv ▸ hid), if_neg hnoE, hm]
            rfl
      · have hnk : ¬(cveKeeps l = true ∧ col (splitDatLine l) 1 = v) := fun hc => hv hc.2
        rw [if_neg hnk]
        rw [if_neg hskip, if_neg hid]
        have hgetset : ∀ (m1 : JsMap (List Str)) s,
            mapGet (mapSet m1 (col (splitDatLine l) 1) s) v = mapGet m1 v :=
          fun m1 s => mapGet_mapSet_ne m1 _ v s (fun hh => hv hh.symm)
        by_cases hE2 : col (splitDatLine l) 2 = "E".toList ∧ col (splitDatLine l) 3 ≠ []
        · cases hm : (mapGet m (col (splitDatLine l) 1)).isSome
          · simp only [hm, Bool.false_eq_true, if_false]
            rw [if_pos hE2, hgetset, hgetset]
          · simp only [hm, if_true]
            rw [if_pos hE2, hgetset]
        · cases hm : (mapGet m (col (splitDatLine l) 1)).isSome
          · simp only [hm, Bool.false_eq_true, if_false]
            rw [if_neg hE2, hgetset]
          · simp only [hm, if_true]
            rw [if_neg hE2]

theorem mapGet_cveCollect_noE (v : Str) (lines : List Str) (m : JsMap (List Str))
    (hE : ∀ l ∈ lines, cveERowFor v l = false) :
    mapGet (lines.foldl cveCollectStep m) v =
      if lines.any (fun l => cveKeeps l && col (splitDatLine l) 1 = v)
      then some ((mapGet m v).getD [])
      else mapGet m v := by
  induction lines generalizing m with
  | nil => simp
  | cons l ls ih =>
      have hEl := hE l (List.mem_cons_self _ _)
      have hEls : ∀ l' ∈ ls, cveERowFor v l' = false :=
        fun l' hl' => hE l' (List.mem_cons_of_mem _ hl')
      show mapGet (ls.foldl cveCollectStep (cveCollectStep m l)) v = _
      rw [ih (cveCollectStep m l) hEls, mapGet_cveCollectStep_noE v m l hEl]
      by_cases hl : cveKeeps l = true ∧ col (splitDatLine l) 1 = v
      · have hany : (l :: ls).any (fun l => cveKeeps l && col (splitDatLine l) 1 = v) = true := by
          simp [List.any_cons, hl.1, hl.2]
        rw [if_pos hl, hany]
        by_cases hls : ls.any (fun l => cveKeeps l && col (splitDatLine l) 1 = v) = true
        · rw [if_pos hls]
          simp
        · rw [if_neg hls]
          simp
      · have hany : (l :: ls).any (fun l => cveKeeps l && col (splitDatLine l) 1 = v) =
            ls.any (fun l => cveKeeps l && col (splitDatLine l) 1 = v) := by
          simp only [List.any_cons]
          have hhead : (cveKeeps l && decide (col (splitDatLine l) 1 = v)) = false := by
            cases hcl : cveKeeps l
            · rfl
            · have hnv : ¬(col (splitDatLine l) 1 = v) := fun hc => hl ⟨hcl, hc⟩
              simp [hnv]
          rw [hhead]
          simp
        rw [if_neg hl, hany]

/-- C9: if some kept CVE row has non-empty col1 `v` but no kept row with
col1 `v` has valueType "E" and non-empty col3, then `parseCveLines` sets the
`enumerations` of every parameter whose `paramId` is `v` to `some []`
(present but empty, replacing any previous value), while preserving the
params' count and paramIds. -/
theorem cve_empty_enum_spec (lines : List Str) (m : JsMap TcEntry) (v : Str)
    (hex : lines.any (fun l => cveKeeps l && col (splitDatLine l) 1 = v) = true)
    (hnoE : ∀ l ∈ lines, cveERowFor v l = false)
    (k : Str) (e e' : TcEntry)
    (h : mapGet m k = some e)
    (h' : mapGet (parseCveLines lines m) k = some e') :
    e'.params.length = e.params.length ∧
    (∀ i p p', e.params.get? i = some p → e'.params.get? i = some p' →
      p'.paramId = p.paramId ∧ (p.paramId = some v → p'.enumerations = some [])) := by
  have hvm : mapGet (cveCollect lines) v = some [] := by
    unfold cveCollect
    rw [mapGet_cveCollect_noE v lines [] hnoE, hex]
    rfl
  have hvne : v ≠ [] := by
    rw [List.any_eq_true] at hex
    obtain ⟨l, _, hl⟩ := hex
    simp only [Bool.and_eq_true, decide_eq_true_eq] at hl
    have := hl.1
    unfold cveKeeps at this
    simp only [Bool.and_eq_true, Bool.not_eq_true', decide_eq_true_eq] at this
    exact hl.2 ▸ this.2
  rw [mapGet_parseCveLines, h, Option.map_some'] at h'
  injection h' with h'
  rw [← h']
  constructor
  · simp
  · intro i p p' hp hp'
    simp only [List.get?_map, hp, Option.map_some'] at hp'
    injection hp' with hp'
    rw [← hp']
    refine ⟨cveAttachParam_paramId _ _, fun hpv => ?_⟩
    unfold cveAttachParam
    rw [hpv]
    simp only [hvm]
    rw [if_neg hvne]
    simp [sortStrings_nil]

/-- Witness for C9: one CVE row introducing valueId V1 with valueType "R"
(not "E"), attached to a command whose parameter has `paramId` V1 and a
previously attached non-empty enumeration list, which gets replaced by `[]`. -/
theorem cve_empty_enum_spec_witness :
    (mapGet (parseCveLines ["x\tV1\tR\tfoo".toList]
        [("A".toList,
          { id := "A".toList, sourcePath := "p".toList, sourceLine := 1,
            params := [{ name := "N".toList, paramId := some "V1".toList, raw := [],
                         enumerations := some ["OLD".toList] }] })])
      "A".toList).map (fun e => e.params.map ParamEntry.enumerations) =
      some [some []] := by
  cases h' : mapGet (parseCveLines ["x\tV1\tR\tfoo".toList]
      [("A".toList,
        { id := "A".toList, sourcePath := "p".toList, sourceLine := 1,
          params := [{ name := "N".toList, paramId := some "V1".toList, raw := [],
                       enumerations := some ["OLD".toList] }] })]) "A".toList with
  | none => exact absurd h' (by decide)
  | some e' =>
      have hs := cve_empty_enum_spec ["x\tV1\tR\tfoo".toList]
        [("A".toList,
          { id := "A".toList, sourcePath := "p".toList, sourceLine := 1,
            params := [{ name := "N".toList, paramId := some "V1".toList, raw := [],
                         enumerations := some ["OLD".toList] }] })]
        "V1".toList (by decide) (by decide) "A".toList
        { id := "A".toList, sourcePath := "p".toList, sourceLine := 1,
          params := [{ name := "N".toList, paramId := some "V1".toList, raw := [],
                       enumerations := some ["OLD".toList] }] }
        e' (by decide) h'
      have hlen : e'.params.length = 1 := hs.1.trans rfl
      obtain ⟨q, hq⟩ := List.length_eq_one.mp hlen
      have h0 : e'.params.get? 0 = some q := by rw [hq]; rfl
      have hp := hs.2 0
        { name := "N".toList, paramId := some "V1".toList, raw := [],
          enumerations := some ["OLD".toList] } q (by decide) h0
      rw [Option.map_some', hq]
      simp only [List.map_cons, List.map_nil]
      rw [hp.2 (by decide)]

/-! ## Claim C3: tiers of `scoreEntryMatch` -/

/-- C3: for every search-index item and non-empty (lower-cased) query,
`scoreEntryMatch` returns 3 iff the query occurs as a substring of the lowered
id or lowered name; 2 iff not 3 and it occurs in some lowered parameter name;
1 iff neither and it occurs in the lowered description; 0 otherwise.  Matching
is substring containment, and the score depends only on the single item given
(the function takes no other entry as input). -/
theorem scoreEntryMatch_tiers (item : EntrySearchIndex) (q : Str) (hq : q ≠ []) :
    (scoreEntryMatch item q = 3 ↔
      (strIncludes item.idLower q ∨ strIncludes item.nameLower q)) ∧
    (scoreEntryMatch item q = 2 ↔
      (¬(strIncludes item.idLower q ∨ strIncludes item.nameLower q) ∧
        ∃ n ∈ item.paramNamesLower, strIncludes n q)) ∧
    (scoreEntryMatch item q = 1 ↔
      (¬(strIncludes item.idLower q ∨ strIncludes item.nameLower q) ∧
        ¬(∃ n ∈ item.paramNamesLower, strIncludes n q) ∧
        strIncludes item.descLower q)) ∧
    (scoreEntryMatch item q = 0 ↔
      (¬(strIncludes item.idLower q ∨ strIncludes item.nameLower q) ∧
        ¬(∃ n ∈ item.paramNamesLower, strIncludes n q) ∧
        ¬strIncludes item.descLower q)) := by
  unfold scoreEntryMatch
  rw [if_neg hq]
  cases h3 : (strIncludes item.idLower q || strIncludes item.nameLower q) <;>
    cases h2 : (item.paramNamesLower.any fun n => strIncludes n q) <;>
      cases h1 : strIncludes item.descLower q <;>
        simp_all [List.any_eq_true]

/-- Witness for C3 at a concrete item and query. -/
theorem scoreEntryMatch_tiers_witness :
    (scoreEntryMatch
      { entry := { id := "TC_A".toList, sourcePath := "ccf.dat".toList, sourceLine := 1 }
        idLower := "tc_a".toList, nameLower := "deploy".toList
        descLower := "deploy solar array".toList
        paramNamesLower := ["mode".toList] } "deploy".toList = 3 ↔
      (strIncludes "tc_a".toList "deploy".toList ∨
        strIncludes "deploy".toList "deploy".toList)) := by
  exact (scoreEntryMatch_tiers
    { entry := { id := "TC_A".toList, sourcePath := "ccf.dat".toList, sourceLine := 1 }
      idLower := "tc_a".toList, nameLower := "deploy".toList
      descLower := "deploy solar array".toList
      paramNamesLower := ["mode".toList] } "deploy".toList (by decide)).1

/-! ## Claim C4: `rankEntries` ordering, truncation and retention -/

theorem rankLeProp_iff (a b : RankedEntry) :
    rankLeProp a b ↔
      (b.score < a.score ∨ (a.score = b.score ∧ chLe a.entry.id b.entry.id = true)) := by
  unfold rankLeProp rankLe
  simp [Bool.or_eq_true, Bool.and_eq_true, decide_eq_true_eq, beq_iff_eq]

/-- C4: `rankEntries` returns at most `limit` results (`limit = 0` yields
`[]`), sorted descending by score with ties broken by ascending lexicographic
id; an empty query retains every entry with score 0 (the full, untruncated
result is a permutation of the whole index scored 0), and a non-empty query
excludes every entry with score 0. -/
theorem rankEntries_spec (idx : List EntrySearchIndex) (q : Str) (limit : Nat) :
    (rankEntries idx q limit).length ≤ limit ∧
    rankEntries idx q 0 = [] ∧
    List.Pairwise
      (fun a b => b.score < a.score ∨ (a.score = b.score ∧ chLe a.entry.id b.entry.id = true))
      (rankEntries idx q limit) ∧
    (q = [] →
      (rankEntries idx q idx.length).Perm
        (idx.map (fun it => ({ entry := it.entry, score := 0 } : RankedEntry))) ∧
      ∀ r ∈ rankEntries idx q limit, r.score = 0) ∧
    (q ≠ [] → ∀ r ∈ rankEntries idx q limit, r.score ≠ 0) := by
  haveI := rankLe_isTotal
  haveI := rankLe_isTrans
  refine ⟨?_, ?_, ?_, ?_, ?_⟩
  · exact List.length_take_le _ _
  · simp [rankEntries]
  · have hs := List.sorted_insertionSort rankLeProp
      ((idx.map (fun item => ⟨item.entry, scoreEntryMatch item (chToLower q)⟩)).filter
        (fun r => r.score > 0 || (chToLower q).length == 0))
    have hp : List.Pairwise rankLeProp (rankEntries idx q limit) :=
      hs.sublist (List.take_sublist _ _)
    exact hp.imp (fun h => (rankLeProp_iff _ _).mp h)
  · intro hq
    subst hq
    have hmap : idx.map (fun item => ⟨item.entry, scoreEntryMatch item (chToLower [])⟩) =
        idx.map (fun it => ({ entry := it.entry, score := 0 } : RankedEntry)) := rfl
    have hfil : (idx.map (fun it => ({ entry := it.entry, score := 0 } : RankedEntry))).filter
        (fun r => r.score > 0 || (chToLower []).length == 0) =
        idx.map (fun it => ({ entry := it.entry, score := 0 } : RankedEntry)) := by
      apply List.filter_eq_self.mpr
      intro a _
      simp only [Bool.or_eq_true, decide_eq_true_eq]
      right
      rfl
    have hperm : ((idx.map (fun it => ({ entry := it.entry, score := 0 } : RankedEntry))).insertionSort
          rankLeProp).Perm
        (idx.map (fun it => ({ entry := it.entry, score := 0 } : RankedEntry))) :=
      List.perm_insertionSort rankLeProp _
    constructor
    · show ((((idx.map (fun item => ⟨item.entry, scoreEntryMatch item (chToLower [])⟩)).filter
          (fun r => r.score > 0 || (chToLower []).length == 0)).insertionSort rankLeProp).take
          idx.length).Perm _
      rw [hmap, hfil]
      have hlen : ((idx.map (fun it => ({ entry := it.entry, score := 0 } : RankedEntry))).insertionSort
          rankLeProp).length = idx.length := by
        rw [hperm.length_eq, List.length_map]
      rw [show idx.length = ((idx.map (fun it => ({ entry := it.entry, score := 0 } : RankedEntry))).insertionSort
          rankLeProp).length from hlen.symm]
      rw [List.take_length]
      exact hperm
    · intro r hr
      have hr1 : r ∈ (idx.map (fun it => ({ entry := it.entry, score := 0 } : RankedEntry))).insertionSort
          rankLeProp := by
        have := List.take_subset limit _ hr
        rw [hmap, hfil] at this
        exact this
      have hr2 : r ∈ idx.map (fun it => ({ entry := it.entry, score := 0 } : RankedEntry)) :=
        hperm.mem_iff.mp hr1
      obtain ⟨it, _, rfl⟩ := List.mem_map.mp hr2
      rfl
  · intro hq r hr
    have hlen : ((chToLower q).length == 0) = false := by
      have : chToLower q ≠ [] := by
        unfold chToLower
        simpa [List.map_eq_nil] using hq
      simpa [List.length_eq_zero] using this
    have hr1 : r ∈ ((idx.map (fun item => ⟨item.entry, scoreEntryMatch item (chToLower q)⟩)).filter
        (fun r => r.score > 0 || (chToLower q).length == 0)).insertionSort rankLeProp :=
      List.take_subset limit _ hr
    have hr2 : r ∈ (idx.map (fun item => ⟨item.entry, scoreEntryMatch item (chToLower q)⟩)).filter
        (fun r => r.score > 0 || (chToLower q).length == 0) :=
      (List.perm_insertionSort rankLeProp _).mem_iff.mp hr1
    have hcond := List.of_mem_filter hr2
    rw [hlen, Bool.or_false] at hcond
    simp only [decide_eq_true_eq] at hcond
    omega

/-- Witness for C4 at a concrete index, query and limits. -/
theorem rankEntries_spec_witness :
    (rankEntries
        (buildEntrySearchIndex
          [{ id := "TC_A".toList, name := some "DEPLOY".toList,
             sourcePath := "p".toList, sourceLine := 1, params := [] }])
        "x".toList 3).length ≤ 3 ∧
    rankEntries
        (buildEntrySearchIndex
          [{ id := "TC_A".toList, name := some "DEPLOY".toList,
             sourcePath := "p".toList, sourceLine := 1, params := [] }])
        "x".toList 0 = [] :=
  ⟨(rankEntries_spec (buildEntrySearchIndex
      [{ id := "TC_A".toList, name := some "DEPLOY".toList,
         sourcePath := "p".toList, sourceLine := 1, params := [] }]) "x".toList 3).1,
   (rankEntries_spec (buildEntrySearchIndex
      [{ id := "TC_A".toList, name := some "DEPLOY".toList,
         sourcePath := "p".toList, sourceLine := 1, params := [] }]) "x".toList 3).2.1⟩

/-! ## Claim C8: determinism of `buildMibIndexFromLines` -/

/-- C8: `buildMibIndexFromLines` is deterministic: two invocations on
identical input file/line collections produce indices with identical key
sequences in `tcById`, `tcByName` and `telemetryBySid`, and identical
per-entry values at every key.  (In this pure embedding the builder is a
function, so equal inputs give equal outputs; this theorem records the
key-set and per-entry form of the spec sentence.) -/
theorem buildMibIndex_deterministic
    (ccf₁ cdf₁ pid₁ plf₁ pcf₁ cve₁ cvp₁ txp₁ ccf₂ cdf₂ pid₂ plf₂ pcf₂ cve₂ cvp₂ txp₂ :
      List DatFile)
    (h1 : ccf₁ = ccf₂) (h2 : cdf₁ = cdf₂) (h3 : pid₁ = pid₂) (h4 : plf₁ = plf₂)
    (h5 : pcf₁ = pcf₂) (h6 : cve₁ = cve₂) (h7 : cvp₁ = cvp₂) (h8 : txp₁ = txp₂) :
    mapKeys (buildMibIndexFromLines ccf₁ cdf₁ pid₁ plf₁ pcf₁ cve₁ cvp₁ txp₁).tcById =
      mapKeys (buildMibIndexFromLines ccf₂ cdf₂ pid₂ plf₂ pcf₂ cve₂ cvp₂ txp₂).tcById ∧
    mapKeys (buildMibIndexFromLines ccf₁ cdf₁ pid₁ plf₁ pcf₁ cve₁ cvp₁ txp₁).tcByName =
      mapKeys (buildMibIndexFromLines ccf₂ cdf₂ pid₂ plf₂ pcf₂ cve₂ cvp₂ txp₂).tcByName ∧
    mapKeys (buildMibIndexFromLines ccf₁ cdf₁ pid₁ plf₁ pcf₁ cve₁ cvp₁ txp₁).telemetryBySid =
      mapKeys (buildMibIndexFromLines ccf₂ cdf₂ pid₂ plf₂ pcf₂ cve₂ cvp₂ txp₂).telemetryBySid ∧
    (∀ k, mapGet (buildMibIndexFromLines ccf₁ cdf₁ pid₁ plf₁ pcf₁ cve₁ cvp₁ txp₁).tcById k =
      mapGet (buildMibIndexFromLines ccf₂ cdf₂ pid₂ plf₂ pcf₂ cve₂ cvp₂ txp₂).tcById k) ∧
    (∀ k, mapGet (buildMibIndexFromLines ccf₁ cdf₁ pid₁ plf₁ pcf₁ cve₁ cvp₁ txp₁).tcByName k =
      mapGet (buildMibIndexFromLines ccf₂ cdf₂ pid₂ plf₂ pcf₂ cve₂ cvp₂ txp₂).tcByName k) ∧
    (∀ k, mapGet (buildMibIndexFromLines ccf₁ cdf₁ pid₁ plf₁ pcf₁ cve₁ cvp₁ txp₁).telemetryBySid k =
      mapGet (buildMibIndexFromLines ccf₂ cdf₂ pid₂ plf₂ pcf₂ cve₂ cvp₂ txp₂).telemetryBySid k) := by
  subst h1; subst h2; subst h3; subst h4; subst h5; subst h6; subst h7; subst h8
  exact ⟨rfl, rfl, rfl, fun _ => rfl, fun _ => rfl, fun _ => rfl⟩

/-- Witness for C8 at a concrete input file set. -/
theorem buildMibIndex_deterministic_witness :
    mapKeys (buildMibIndexFromLines [⟨"p".toList, ["A\tN".toList]⟩] [] [] [] [] [] [] []).tcById =
      mapKeys (buildMibIndexFromLines [⟨"p".toList, ["A\tN".toList]⟩] [] [] [] [] [] [] []).tcById :=
  (buildMibIndex_deterministic [⟨"p".toList, ["A\tN".toList]⟩] [] [] [] [] [] [] []
    [⟨"p".toList, ["A\tN".toList]⟩] [] [] [] [] [] [] []
    rfl rfl rfl rfl rfl rfl rfl rfl).1

/-! ## Claim C6: `isRequiredParam` -/

/-- C6: `isRequiredParam name kind` is `false` iff the name is empty, or the
name case-insensitively equals "filler", or the kind is present and its
upper-cased form equals "A"; it is `true` in every other case (including an
absent kind), and the function is total. -/
theorem isRequiredParam_spec (name : Str) (kind : Option Str) :
    isRequiredParam name kind = false ↔
      (name = [] ∨ chToLower name = "filler".toList ∨
        (∃ k, kind = some k ∧ chToUpper k = "A".toList)) := by
  unfold isRequiredParam
  by_cases h1 : name = ([] : Str)
  · simp [h1]
  · by_cases h2 : chToLower name = ['f', 'i', 'l', 'l', 'e', 'r']
    · rw [if_pos (by simp [h1, h2])]
      simp [h2]
    · rw [if_neg (by simp [h1, h2])]
      match kind with
      | none => simp [h1, h2]
      | some k =>
          by_cases hk : k = ([] : Str)
          · subst hk
            have hne : chToUpper ([] : Str) ≠ ['A'] := by decide
            simp [h1, h2, hne]
          · by_cases hA : chToUpper k = ['A']
            · simp [h1, h2, hk, hA]
            · simp [h1, h2, hk, hA]

end Scos
